import Mathlib

/-!
Verification development for the vidnag download job scheduler and worker
engine.  The definitions below are a shallow embedding of the Python source
under `backend/`: pure helpers become Lean functions, the database becomes an
explicit record of tables, and the scheduler becomes a step relation on an
explicit state.  Machine floats in the source (job progress values) are
modelled as rationals; timestamps are modelled as naturals or rationals.
-/

namespace Vidnag

/-- Job status values, per the check constraint on `processing_jobs.status`
in `backend/models.py`. -/
inductive JobStatus where
  | pending
  | running
  | completed
  | failed
  | cancelled
deriving DecidableEq

/-- Video (artifact) status values, per the check constraint on
`videos.status` in `backend/models.py`. -/
inductive VideoStatus where
  | processing
  | ready
  | error
  | deleted
deriving DecidableEq

/-- One row of the `processing_jobs` table, restricted to the fields the
scheduler and worker read or write. -/
structure Job where
  id : Nat
  videoId : Nat
  userId : Nat
  jobType : String
  status : JobStatus
  priority : Int
  createdAt : Nat
  progress : ℚ
  currentStep : String
  errorMessage : Option String
  errorTrace : Option String
  startedAt : Option Nat
  completedAt : Option Nat
deriving DecidableEq

/-- One row of the `videos` table, restricted to the fields the worker
touches. -/
structure Video where
  id : Nat
  userId : Nat
  status : VideoStatus
  filePath : String
  fileSize : Nat
  checksum : Option String
  errorMessage : Option String
  sourceUrl : String
deriving DecidableEq

/-- One row of the `users` table, restricted to the quota counter the worker
updates (`users.storage_used`, constrained nonnegative in the model, hence a
natural number). -/
structure User where
  id : Nat
  storageUsed : Nat
deriving DecidableEq

/-- The database state seen by the worker: the three tables it reads and
writes through short transactions. -/
structure DB where
  jobs : List Job
  videos : List Video
  users : List User
deriving DecidableEq

/-! ## File operations (`backend/utils/file_operations.py`) -/

/-- Python `Path(filename).name` on a path given by its `/`-separated
components: `pathlib` drops empty and `.` components and `name` is the last
remaining component, or the empty string when none remains. -/
def pathName (parts : List String) : String :=
  (((parts.filter (fun s => decide (s ≠ "" ∧ s ≠ "."))).getLast?).getD "")

/-- Failure cases of `safe_move_file`, one per `raise FileOperationError`
site in the source. -/
inductive MoveError where
  | srcNotFound
  | srcNotFile
  | outsideRoot
  | invalidFilename
  | destAlreadyExists
  | mkdirFailed
  | moveFailed
deriving DecidableEq

/-- Filesystem facts consulted by `safe_move_file`: whether the source
exists and is a regular file, whether the destination path already exists,
and whether the mkdir and move system calls succeed. -/
structure MoveEnv where
  srcExists : Bool
  srcIsFile : Bool
  destExists : Bool
  mkdirOk : Bool
  moveOk : Bool
deriving DecidableEq

/-- Model of `safe_move_file(src, dest_dir, filename, storage_root)`.
Directories are modelled as lists of components, already resolved to
absolute form (mirroring the `Path(...).resolve()` calls in the source).
The checks appear in source order: source existence, containment of the
resolved destination directory in the storage root (`relative_to`),
sanitisation of `filename` to its last path component with rejection of
empty, `.` and `..`, refusal to overwrite, directory creation, and the
final move, returning the destination path `dest_dir / safe_filename`. -/
def safe_move_file (env : MoveEnv) (destDir : List String)
    (filename : List String) (storageRoot : List String) :
    Except MoveError (List String) :=
  if ¬ env.srcExists then .error .srcNotFound
  else if ¬ env.srcIsFile then .error .srcNotFile
  else if ¬ storageRoot.isPrefixOf destDir then .error .outsideRoot
  else if pathName filename = "" ∨ pathName filename = "."
      ∨ pathName filename = ".." then
    .error .invalidFilename
  else if env.destExists then .error .destAlreadyExists
  else if ¬ env.mkdirOk then .error .mkdirFailed
  else if ¬ env.moveOk then .error .moveFailed
  else .ok (destDir ++ [pathName filename])

/-! ## WebSocket manager (`backend/core/websocket_manager.py`) -/

/-- The subscriber map `active_connections`: user id to the set of live
sinks (sockets are identified by naturals). -/
abbrev ConnMap := List (Nat × Finset Nat)

/-- Replace the sink set stored for `uid` (Python dict assignment). -/
def wsSetEntry (m : ConnMap) (uid : Nat) (s : Finset Nat) : ConnMap :=
  m.map (fun p => if p.1 = uid then (uid, s) else p)

/-- Delete the entry stored for `uid` (Python `del`). -/
def wsRemoveEntry (m : ConnMap) (uid : Nat) : ConnMap :=
  m.filter (fun p => decide (p.1 ≠ uid))

/-- Model of `WebSocketManager.connect`: create the entry with an empty set
when absent, then add the socket. -/
def connect (m : ConnMap) (uid ws : Nat) : ConnMap :=
  match List.lookup uid m with
  | none => (uid, {ws}) :: m
  | some s => wsSetEntry m uid (insert ws s)

/-- Model of `WebSocketManager.disconnect`: discard the socket and delete
the entry when its set becomes empty. -/
def disconnect (m : ConnMap) (uid ws : Nat) : ConnMap :=
  match List.lookup uid m with
  | none => m
  | some s =>
    let s2 := s.erase ws
    if s2 = ∅ then wsRemoveEntry m uid else wsSetEntry m uid s2

/-- Model of the dead-sink cleanup at the end of
`WebSocketManager.broadcast_to_user`: discard every disconnected sink and
delete the entry when no sinks remain. -/
def broadcast_prune (m : ConnMap) (uid : Nat) (dead : Finset Nat) : ConnMap :=
  match List.lookup uid m with
  | none => m
  | some s =>
    let s2 := s \ dead
    if s2 = ∅ then wsRemoveEntry m uid else wsSetEntry m uid s2

/-- The invariant of the subscriber map: every stored owner maps to a
non-empty sink set. -/
def WsInv (m : ConnMap) : Prop := ∀ p ∈ m, p.2 ≠ (∅ : Finset Nat)

instance (m : ConnMap) : Decidable (WsInv m) := by
  unfold WsInv; infer_instance

lemma wsInv_setEntry {m : ConnMap} {s : Finset Nat} (uid : Nat)
    (h : WsInv m) (hs : s ≠ ∅) : WsInv (wsSetEntry m uid s) := by
  intro p hp
  rcases List.mem_map.1 hp with ⟨q, hq, hqe⟩
  by_cases hq1 : q.1 = uid
  · rw [if_pos hq1] at hqe
    rw [← hqe]
    exact hs
  · rw [if_neg hq1] at hqe
    rw [← hqe]
    exact h q hq

lemma wsInv_removeEntry {m : ConnMap} (uid : Nat)
    (h : WsInv m) : WsInv (wsRemoveEntry m uid) := by
  intro p hp
  exact h p (List.mem_of_mem_filter hp)

/-- **C9**: the progress broadcaster subscriber map never keeps an owner
entry with an empty sink set: `connect` only ever stores sets with a freshly
added socket, `disconnect` deletes the owner entry when the last sink is
discarded, and the dead-sink pruning in `broadcast_to_user` deletes the
entry when no sinks remain, so each operation preserves the invariant that
every stored owner maps to a non-empty set. -/
theorem ws_map_no_empty_entries (m : ConnMap) (uid ws : Nat) (dead : Finset Nat)
    (h : WsInv m) :
    WsInv (connect m uid ws) ∧ WsInv (disconnect m uid ws)
      ∧ WsInv (broadcast_prune m uid dead) := by
  refine ⟨?_, ?_, ?_⟩
  · unfold connect
    cases hl : List.lookup uid m with
    | none =>
      intro p hp
      rcases List.mem_cons.1 hp with rfl | hp2
      · exact Finset.singleton_ne_empty ws
      · exact h p hp2
    | some s =>
      exact wsInv_setEntry uid h (Finset.insert_ne_empty ws s)
  · unfold disconnect
    cases hl : List.lookup uid m with
    | none => exact h
    | some s =>
      by_cases he : s.erase ws = ∅
      · simpa [he] using wsInv_removeEntry uid h
      · simpa [he] using wsInv_setEntry uid h he
  · unfold broadcast_prune
    cases hl : List.lookup uid m with
    | none => exact h
    | some s =>
      by_cases he : s \ dead = ∅
      · simpa [he] using wsInv_removeEntry uid h
      · simpa [he] using wsInv_setEntry uid h he

/-- Witness for C9 at a concrete subscriber map. -/
theorem ws_map_no_empty_entries_witness :
    WsInv (connect [(1, {5})] 2 7) ∧ WsInv (disconnect [(1, {5})] 1 5)
      ∧ WsInv (broadcast_prune [(1, {5})] 1 {5}) := by
  refine ⟨(ws_map_no_empty_entries [(1, {5})] 2 7 {5} (by decide)).1,
    (ws_map_no_empty_entries [(1, {5})] 1 5 {5} (by decide)).2.1,
    (ws_map_no_empty_entries [(1, {5})] 1 5 {5} (by decide)).2.2⟩

/-- **C10**: for every caller-supplied filename, `safe_move_file` either
fails with a `FileOperationError` or returns exactly the resolved
destination directory extended by the final path component of the filename;
the filename is reduced to its last component, and empty, `.` and `..`
names are rejected, so no filename argument can place the moved file
outside the destination directory. -/
theorem safe_move_file_confined (env : MoveEnv)
    (destDir filename storageRoot : List String) :
    (∃ e, safe_move_file env destDir filename storageRoot = .error e)
    ∨ (safe_move_file env destDir filename storageRoot
          = .ok (destDir ++ [pathName filename])
        ∧ pathName filename ≠ "" ∧ pathName filename ≠ "."
        ∧ pathName filename ≠ "..") := by
  unfold safe_move_file
  split_ifs with h1 h2 h3 h4 h5 h6 h7
  all_goals try exact .inl ⟨_, rfl⟩
  push_neg at h4
  exact .inr ⟨rfl, h4.1, h4.2.1, h4.2.2⟩

/-! ## Download worker (`backend/workers/download_worker.py`) -/

/-- Substring search over character lists, modelling the Python `in`
operator on strings. -/
def hasSubAux (pat : List Char) : List Char → Bool
  | [] => pat.isEmpty
  | c :: rest => pat.isPrefixOf (c :: rest) || hasSubAux pat rest

/-- Python `pat in s` for strings. -/
def containsSub (s pat : String) : Bool := hasSubAux pat.data s.data

/-- Look up a job row by primary key (`session.query(ProcessingJob).filter(
ProcessingJob.id == job_id).first()`). -/
def findJob (db : DB) (jid : Nat) : Option Job :=
  db.jobs.find? (fun j => decide (j.id = jid))

/-- Look up a video row by primary key. -/
def findVideo (db : DB) (vid : Nat) : Option Video :=
  db.videos.find? (fun v => decide (v.id = vid))

/-- Look up a user row by primary key. -/
def findUser (db : DB) (uid : Nat) : Option User :=
  db.users.find? (fun u => decide (u.id = uid))

/-- Apply an update to the job row with the given id, in its own short
transaction (rows with other ids are untouched; a missing row means no
write happens). -/
def updateJob (db : DB) (jid : Nat) (f : Job → Job) : DB :=
  { db with jobs := db.jobs.map (fun j => if j.id = jid then f j else j) }

/-- Apply an update to the video row with the given id. -/
def updateVideo (db : DB) (vid : Nat) (f : Video → Video) : DB :=
  { db with videos := db.videos.map (fun v => if v.id = vid then f v else v) }

/-- Apply an update to the user row with the given id. -/
def updateUser (db : DB) (uid : Nat) (f : User → User) : DB :=
  { db with users := db.users.map (fun u => if u.id = uid then f u else u) }

/-- Model of `DownloadWorker._update_job_progress`: stores
`min(progress, 100.0)` and the step label on the job row. -/
def update_job_progress (db : DB) (jid : Nat) (progress : ℚ) (step : String) :
    DB :=
  updateJob db jid (fun j => { j with progress := min progress 100,
                                      currentStep := step })

/-- Model of `DownloadWorker._mark_job_failed`: set the job to `failed` with
the message, the truncated diagnostic trace and a completion stamp, and
mirror the error onto the video row (guarded by Python truthiness of
`job.video_id`, hence the `≠ 0` test). -/
def mark_job_failed (db : DB) (jid : Nat) (msg : String)
    (trace : Option String) (now : Nat) : DB :=
  match findJob db jid with
  | none => db
  | some job =>
    let db1 := updateJob db jid (fun j =>
      { j with status := .failed, errorMessage := some msg,
               errorTrace := match trace with
                 | some t => some (t.take 5000)
                 | none => j.errorTrace,
               completedAt := some now })
    if job.videoId ≠ 0 then
      updateVideo db1 job.videoId (fun v =>
        { v with status := .error, errorMessage := some msg })
    else db1

/-- The percent scaling applied to each parsed yt-dlp progress line in
`_execute_download_subprocess`: `5.0 + percent * 0.65`. -/
def scaledProgress (percent : ℚ) : ℚ := 5 + percent * (65 / 100)

/-- Step label written with each download progress update.  The source
renders the percent with one decimal; here it is rendered with `toString`,
since only the numeric progress value is specified. -/
def downloadStep (percent : ℚ) : String :=
  "Downloading: " ++ toString percent ++ "%"

/-- Progress values actually written to the job row by the output-monitor
loop of `_execute_download_subprocess`, given the parsed progress lines as
(timestamp, percent) pairs and the time of the previous write.  A line is
written only when the percent is truthy (non-zero, from
`progress_info.get(...)` used as a condition) and at least 2 seconds have
elapsed since the last write; the written value is `min(5 + 0.65 p, 100)`
because `_update_job_progress` caps at 100. -/
def progressWrites (last : ℚ) : List (ℚ × ℚ) → List ℚ
  | [] => []
  | (t, p) :: rest =>
    if p ≠ 0 ∧ t - last ≥ 2 then
      min (scaledProgress p) 100 :: progressWrites t rest
    else progressWrites last rest

/-- The database effect of the same monitor loop: each admitted line goes
through `_update_job_progress`. -/
def applyMonitorWrites (db : DB) (jid : Nat) (last : ℚ) :
    List (ℚ × ℚ) → DB
  | [] => db
  | (t, p) :: rest =>
    if p ≠ 0 ∧ t - last ≥ 2 then
      applyMonitorWrites
        (update_job_progress db jid (scaledProgress p) (downloadStep p))
        jid t rest
    else applyMonitorWrites db jid last rest

/-- What the external fetch process does, seen by the worker: the process
either exits with a code after its output is consumed, or the bounded
`process.wait(timeout=...)` call raises `TimeoutExpired`. -/
inductive ProcOutcome where
  | exited (code : Int)
  | timedOut
deriving DecidableEq

/-- Exception-level result of `_execute_download_subprocess`: a normal
return with the discovered output file, a `CalledProcessError` carrying the
captured output, or a re-raised `TimeoutExpired`. -/
inductive SubprocResult where
  | ok (found : Option String)
  | calledProcessError (output : String)
  | timeoutExpired
deriving DecidableEq

/-- Environment of one `execute_download` run: everything the worker reads
from the outside world (process behaviour, filesystem, clock). -/
structure WorkerEnv where
  /-- Parsed yt-dlp progress lines, as (wall-clock time, percent) pairs. -/
  lines : List (ℚ × ℚ)
  /-- Captured process output (the joined `output_lines`). -/
  output : String
  /-- How the process run ends. -/
  outcome : ProcOutcome
  /-- Result of `_find_downloaded_file` combined with the existence check
  on the returned path (`none` when no file is found). -/
  foundFile : Option String
  /-- Value of `last_progress_update` when monitoring starts. -/
  t0 : ℚ
  /-- `get_file_size` of the downloaded file. -/
  fileSize : Nat
  /-- `calculate_file_checksum` of the downloaded file. -/
  checksum : String
  /-- Whether `safe_move_file` into permanent storage succeeds. -/
  moveOk : Bool
  /-- Path returned by `safe_move_file` on success. -/
  finalPath : String
  /-- Message of the `FileOperationError` when the move fails. -/
  moveErrText : String
  /-- Configured `downloads.timeout_seconds`. -/
  timeoutSecs : Nat
  /-- Rendering of the command list inside `str(TimeoutExpired)`. -/
  cmdStr : String
  /-- Whether a partial file is present at the temporary output location
  (`os.path.exists` as queried by `_handle_subprocess_error`). -/
  leftoverOnDisk : Bool
  /-- Size of the partial file, when one is present. -/
  leftoverSize : Nat
  /-- Checksum of the partial file, when one is present. -/
  leftoverChecksum : String
  /-- `datetime.utcnow()` at finalization. -/
  now : Nat
  /-- `traceback.format_exc()` text for the generic exception handler. -/
  traceText : String
deriving DecidableEq

/-- Single quote character, used in the Python rendering of
`TimeoutExpired`. -/
def squote : String := String.mk [Char.ofNat 39]

/-- Python `str(subprocess.TimeoutExpired(cmd, timeout))`:
`Command <cmd> timed out after <timeout> seconds` with the command quoted. -/
def timeoutExpiredStr (cmdStr : String) (timeoutSecs : Nat) : String :=
  "Command " ++ squote ++ cmdStr ++ squote ++ " timed out after "
    ++ toString timeoutSecs ++ " seconds"

/-- Model of `_execute_download_subprocess` at the exception level, paired
with whether `process.kill()` was invoked: output monitoring happens first
(its database effect is applied separately by the caller model; the
`for line in process.stdout` loop itself has no time bound), then
`process.wait(timeout=...)` either yields an exit code — non-zero raising
`CalledProcessError` with the captured output — or raises
`TimeoutExpired`, in which case the process is killed and the exception
re-raised.  The configured timeout therefore bounds only the interval
between stdout reaching EOF and process exit, never the streaming
phase. -/
def execute_download_subprocess (env : WorkerEnv) : SubprocResult × Bool :=
  match env.outcome with
  | .timedOut => (.timeoutExpired, true)
  | .exited code =>
    if code ≠ 0 then (.calledProcessError env.output, false)
    else (.ok env.foundFile, false)

/-- The fixed user-facing message for the size-limit failure class. -/
def sizeLimitMsg : String :=
  "Video exceeds the download size limit. Partial download has been saved. "
    ++ "Please contact an administrator to increase your download limit."

/-- The partial-file preservation block inside `_handle_subprocess_error`:
executed only when the caller passed a non-None temporary path and the file
exists on disk, it computes size and checksum of the partial file, moves it
into permanent storage and records it on the video row; a failing move is
caught and logged, leaving the database untouched. -/
def save_partial_file (db : DB) (videoId : Nat) (tempFile : Option String)
    (env : WorkerEnv) : DB :=
  match tempFile with
  | none => db
  | some _ =>
    if env.leftoverOnDisk then
      match findVideo db videoId with
      | none => db
      | some _ =>
        if env.moveOk then
          updateVideo db videoId (fun v =>
            { v with status := .error, errorMessage := some sizeLimitMsg,
                     filePath := env.finalPath,
                     fileSize := env.leftoverSize,
                     checksum := some env.leftoverChecksum })
        else db
    else db

/-- The non-size-limit failure classes of `_handle_subprocess_error`:
unsupported or invalid URL, unavailable video, private video, and the
generic fallback truncating the captured output to 200 characters. -/
def classify_error_output (output : String) : String :=
  if containsSub output "Unsupported URL"
      || containsSub output "is not a valid URL" then
    "This URL is not supported or is invalid"
  else if containsSub output "Video unavailable" then
    "Video is unavailable or has been removed"
  else if containsSub output "Private video" then
    "Video is private and cannot be downloaded"
  else "Download failed: " ++ output.take 200

/-- Model of `_handle_subprocess_error`: classify the captured output; on
the size-limit class run the preservation block and mark the job failed
with the fixed size-limit message; other classes mark the job failed with
their classified message.  Returns the new database state and the
user-facing message. -/
def handle_subprocess_error (db : DB) (jid : Nat) (videoId : Nat)
    (tempFile : Option String) (output : String) (env : WorkerEnv) :
    DB × String :=
  if containsSub output "File is larger than max-filesize"
      || containsSub output "max-filesize" then
    (mark_job_failed (save_partial_file db videoId tempFile env) jid
       sizeLimitMsg (some output) env.now, sizeLimitMsg)
  else
    (mark_job_failed db jid (classify_error_output output) (some output)
       env.now, classify_error_output output)

/-- Model of `DownloadWorker.execute_download`.  Returns the success flag,
the final database state, and the chronological list of progress values
written to the job row during the run (each assignment to `job.progress`).
Control flow follows the source: load job and video (fail silently when
missing), set the row running with progress 0, write progress 5, run the
subprocess while applying the monitored progress writes, then branch on the
subprocess result — `TimeoutExpired` and any other non-`CalledProcessError`
exception land in the generic handler with an `Unexpected error:` message,
`CalledProcessError` goes to `_handle_subprocess_error` with
`temp_output_path` still `None` (the assignment never happened, since the
helper raised before returning), and a zero exit leads to checksum, move
and the single finalization transaction that also charges the owner
quota. -/
def execute_download (db : DB) (jid : Nat) (env : WorkerEnv) :
    Bool × DB × List ℚ :=
  match findJob db jid with
  | none => (false, db, [])
  | some job =>
    match findVideo db job.videoId with
    | none => (false, db, [])
    | some video =>
      let db1 := updateJob db jid (fun j =>
        { j with status := .running, currentStep := "Initializing download",
                 progress := 0 })
      let db2 := update_job_progress db1 jid 5 "Starting download"
      let db3 := applyMonitorWrites db2 jid env.t0 env.lines
      let baseLog : List ℚ := 0 :: 5 :: progressWrites env.t0 env.lines
      match execute_download_subprocess env with
      | (.timeoutExpired, _) =>
        (false,
          mark_job_failed db3 jid
            ("Unexpected error: " ++ timeoutExpiredStr env.cmdStr env.timeoutSecs)
            (some env.traceText) env.now,
          baseLog)
      | (.calledProcessError output, _) =>
        (false, (handle_subprocess_error db3 jid job.videoId none output env).1,
          baseLog)
      | (.ok found, _) =>
        match found with
        | none =>
          (false,
            mark_job_failed db3 jid
              "Unexpected error: Download completed but output file not found"
              (some env.traceText) env.now,
            baseLog)
        | some _ =>
          let db4 := update_job_progress db3 jid 70 "Calculating checksum"
          let db5 := update_job_progress db4 jid 80 "Moving to storage"
          if env.moveOk then
            let db6 := update_job_progress db5 jid 90 "Updating database"
            let db7 := updateVideo db6 job.videoId (fun v =>
              { v with status := .ready, filePath := env.finalPath,
                       fileSize := env.fileSize,
                       checksum := some env.checksum, errorMessage := none })
            let db8 := updateJob db7 jid (fun j =>
              { j with status := .completed, progress := 100,
                       currentStep := "Completed", completedAt := some env.now })
            let db9 := updateUser db8 video.userId (fun u =>
              { u with storageUsed := u.storageUsed + env.fileSize })
            (true, db9, baseLog ++ [70, 80, 90, 100])
          else
            (false,
              mark_job_failed db5 jid
                ("Unexpected error: " ++ env.moveErrText)
                (some env.traceText) env.now,
              baseLog ++ [70, 80])

/-! ## Concrete fixtures used by the closed theorems -/

/-- A freshly submitted download job, as `VideoDownloadService.submit_download`
creates it. -/
def demoJob : Job :=
  { id := 1, videoId := 10, userId := 100, jobType := "download",
    status := .pending, priority := 0, createdAt := 0, progress := 0,
    currentStep := "Queued", errorMessage := none, errorTrace := none,
    startedAt := none, completedAt := none }

/-- The artifact row created together with `demoJob` (size 0 while
`processing`). -/
def demoVideo : Video :=
  { id := 10, userId := 100, status := .processing,
    filePath := "storage/videos/u.mp4", fileSize := 0, checksum := none,
    errorMessage := none, sourceUrl := "https://example.com/v" }

/-- The owning user. -/
def demoUser : User := { id := 100, storageUsed := 7 }

/-- One-job database. -/
def demoDB : DB :=
  { jobs := [demoJob], videos := [demoVideo], users := [demoUser] }

/-- A run whose fetch process fails with the size-limit message while a
partial file of 5000 bytes is present at the temporary location. -/
def sizeLimitEnv : WorkerEnv :=
  { lines := [], output := "ERROR: File is larger than max-filesize",
    outcome := .exited 1, foundFile := none, t0 := 0, fileSize := 4096,
    checksum := "abc", moveOk := true, finalPath := "storage/videos/u.mp4",
    moveErrText := "", timeoutSecs := 300, cmdStr := "yt-dlp",
    leftoverOnDisk := true, leftoverSize := 5000,
    leftoverChecksum := "deadbeef", now := 42, traceText := "tb" }

/-- A run whose fetch process exceeds the wall-clock timeout. -/
def timeoutEnv : WorkerEnv := { sizeLimitEnv with outcome := .timedOut }

/-- A run whose fetch process succeeds. -/
def successEnv : WorkerEnv :=
  { sizeLimitEnv with outcome := .exited 0, foundFile := some "/tmp/u.mp4" }

/-- A failing run whose progress lines report 100 percent for the first
downloaded stream and then reset to 1 percent for the second stream, as
yt-dlp emits for separate video and audio downloads. -/
def resetEnv : WorkerEnv :=
  { sizeLimitEnv with lines := [(10, 100), (20, 1)] }

/-- A run whose fetch process is still emitting progress output at
wall-clock time 10000, far beyond the 300-second budget that started at
time 0 (the emitted line reports 0 percent), and that afterwards exits 0
with its output file in place. -/
def overtimeEnv : WorkerEnv :=
  { successEnv with lines := [(10000, 0)] }

/-! ## Worker lemmas -/

lemma updateJob_videos (db : DB) (jid : Nat) (f : Job → Job) :
    (updateJob db jid f).videos = db.videos := rfl

lemma updateJob_users (db : DB) (jid : Nat) (f : Job → Job) :
    (updateJob db jid f).users = db.users := rfl

lemma updateVideo_jobs (db : DB) (vid : Nat) (f : Video → Video) :
    (updateVideo db vid f).jobs = db.jobs := rfl

lemma updateVideo_users (db : DB) (vid : Nat) (f : Video → Video) :
    (updateVideo db vid f).users = db.users := rfl

lemma updateUser_jobs (db : DB) (uid : Nat) (f : User → User) :
    (updateUser db uid f).jobs = db.jobs := rfl

lemma updateUser_videos (db : DB) (uid : Nat) (f : User → User) :
    (updateUser db uid f).videos = db.videos := rfl

lemma applyMonitorWrites_videos (jid : Nat) :
    ∀ (lines : List (ℚ × ℚ)) (db : DB) (last : ℚ),
      (applyMonitorWrites db jid last lines).videos = db.videos := by
  intro lines
  induction lines with
  | nil => intro db last; rfl
  | cons hd tl ih =>
    intro db last
    obtain ⟨t, p⟩ := hd
    unfold applyMonitorWrites
    split_ifs with hc
    · rw [ih]; rfl
    · exact ih db last

lemma applyMonitorWrites_users (jid : Nat) :
    ∀ (lines : List (ℚ × ℚ)) (db : DB) (last : ℚ),
      (applyMonitorWrites db jid last lines).users = db.users := by
  intro lines
  induction lines with
  | nil => intro db last; rfl
  | cons hd tl ih =>
    intro db last
    obtain ⟨t, p⟩ := hd
    unfold applyMonitorWrites
    split_ifs with hc
    · rw [ih]; rfl
    · exact ih db last

lemma mark_job_failed_users (db : DB) (jid : Nat) (msg : String)
    (trace : Option String) (now : Nat) :
    (mark_job_failed db jid msg trace now).users = db.users := by
  unfold mark_job_failed
  cases findJob db jid with
  | none => rfl
  | some job =>
    dsimp only
    split_ifs with h
    · rfl
    · rfl

lemma save_partial_file_users (db : DB) (videoId : Nat)
    (tempFile : Option String) (env : WorkerEnv) :
    (save_partial_file db videoId tempFile env).users = db.users := by
  unfold save_partial_file
  cases tempFile with
  | none => rfl
  | some tf =>
    dsimp only
    cases findVideo db videoId <;> split_ifs <;> rfl

lemma save_partial_file_jobs (db : DB) (videoId : Nat)
    (tempFile : Option String) (env : WorkerEnv) :
    (save_partial_file db videoId tempFile env).jobs = db.jobs := by
  unfold save_partial_file
  cases tempFile with
  | none => rfl
  | some tf =>
    dsimp only
    cases findVideo db videoId <;> split_ifs <;> rfl

lemma handle_subprocess_error_users (db : DB) (jid : Nat) (videoId : Nat)
    (tempFile : Option String) (output : String) (env : WorkerEnv) :
    (handle_subprocess_error db jid videoId tempFile output env).1.users
      = db.users := by
  unfold handle_subprocess_error
  split_ifs with h
  · rw [show (mark_job_failed (save_partial_file db videoId tempFile env) jid
        sizeLimitMsg (some output) env.now, sizeLimitMsg).1
          = mark_job_failed (save_partial_file db videoId tempFile env) jid
              sizeLimitMsg (some output) env.now from rfl,
      mark_job_failed_users, save_partial_file_users]
  · exact mark_job_failed_users ..

lemma find?_map_ite {α : Type} (key : α → Nat) (jid : Nat) (f : α → α)
    (hf : ∀ a, key (f a) = key a) :
    ∀ l : List α,
      (l.map (fun a => if key a = jid then f a else a)).find?
          (fun a => decide (key a = jid))
        = (l.find? (fun a => decide (key a = jid))).map f := by
  intro l
  induction l with
  | nil => rfl
  | cons a l ih =>
    dsimp only [List.map_cons]
    by_cases h : key a = jid
    · rw [if_pos h, List.find?_cons_of_pos _ (by simp [hf a, h]),
        List.find?_cons_of_pos _ (by simp [h])]
      rfl
    · rw [if_neg h, List.find?_cons_of_neg _ (by simp [h]),
        List.find?_cons_of_neg _ (by simp [h])]
      exact ih

lemma findJob_updateJob (db : DB) (jid : Nat) (f : Job → Job)
    (hf : ∀ j, (f j).id = j.id) :
    findJob (updateJob db jid f) jid = (findJob db jid).map f := by
  unfold findJob updateJob
  exact find?_map_ite Job.id jid f hf db.jobs

lemma findVideo_updateVideo (db : DB) (vid : Nat) (f : Video → Video)
    (hf : ∀ v, (f v).id = v.id) :
    findVideo (updateVideo db vid f) vid = (findVideo db vid).map f := by
  unfold findVideo updateVideo
  exact find?_map_ite Video.id vid f hf db.videos

lemma findUser_updateUser (db : DB) (uid : Nat) (f : User → User)
    (hf : ∀ u, (f u).id = u.id) :
    findUser (updateUser db uid f) uid = (findUser db uid).map f := by
  unfold findUser updateUser
  exact find?_map_ite User.id uid f hf db.users

lemma updateJob_id (db : DB) (jid : Nat) :
    updateJob db jid (fun j => j) = db := by
  simp [updateJob]

lemma updateJob_comp (db : DB) (jid : Nat) (f g : Job → Job)
    (hf : ∀ j, (f j).id = j.id) :
    updateJob (updateJob db jid f) jid g
      = updateJob db jid (fun j => g (f j)) := by
  unfold updateJob
  dsimp only
  rw [List.map_map]
  have : ((fun j => if j.id = jid then g j else j)
      ∘ fun j => if j.id = jid then f j else j)
      = fun j => if j.id = jid then g (f j) else j := by
    funext j
    by_cases h : j.id = jid
    · simp [h, hf j]
    · simp [h]
  rw [this]

/-- A job-row transformation that touches only the progress value and the
step label, the shape of everything the monitor loop writes. -/
def progressOnly (g : Job → Job) : Prop :=
  ∀ j, ∃ p s, g j = { j with progress := p, currentStep := s }

lemma progressOnly_id : progressOnly (fun j => j) :=
  fun j => ⟨j.progress, j.currentStep, rfl⟩

lemma applyMonitorWrites_shape (jid : Nat) :
    ∀ (lines : List (ℚ × ℚ)) (db : DB) (last : ℚ),
      ∃ g, progressOnly g
        ∧ applyMonitorWrites db jid last lines = updateJob db jid g := by
  intro lines
  induction lines with
  | nil =>
    intro db last
    exact ⟨fun j => j, progressOnly_id, by rw [updateJob_id]; rfl⟩
  | cons hd tl ih =>
    intro db last
    obtain ⟨t, p⟩ := hd
    simp only [applyMonitorWrites]
    by_cases hc : p ≠ 0 ∧ t - last ≥ 2
    · rw [if_pos hc]
      obtain ⟨g, hg, he⟩ :=
        ih (update_job_progress db jid (scaledProgress p) (downloadStep p)) t
      refine ⟨fun j => g { j with progress := min (scaledProgress p) 100,
                                  currentStep := downloadStep p }, ?_, ?_⟩
      · intro j
        obtain ⟨p2, s2, h2⟩ :=
          hg { j with progress := min (scaledProgress p) 100,
                      currentStep := downloadStep p }
        exact ⟨p2, s2, h2⟩
      · rw [he,
          show update_job_progress db jid (scaledProgress p) (downloadStep p)
              = updateJob db jid (fun j =>
                  { j with progress := min (scaledProgress p) 100,
                           currentStep := downloadStep p }) from rfl,
          updateJob_comp db jid
            (fun j => { j with progress := min (scaledProgress p) 100,
                               currentStep := downloadStep p })
            g (fun j => rfl)]
    · rw [if_neg hc]
      exact ih db last


lemma progressOnly_fixes_id {g : Job → Job} (hg : progressOnly g) (j : Job) :
    (g j).id = j.id := by
  obtain ⟨p, s, h⟩ := hg j
  rw [h]

lemma findJob_updateVideo (db : DB) (jid vid : Nat) (f : Video → Video) :
    findJob (updateVideo db vid f) jid = findJob db jid := rfl

lemma findJob_updateUser (db : DB) (jid uid : Nat) (f : User → User) :
    findJob (updateUser db uid f) jid = findJob db jid := rfl

lemma findVideo_updateJob (db : DB) (vid jid : Nat) (f : Job → Job) :
    findVideo (updateJob db jid f) vid = findVideo db vid := rfl

lemma findVideo_updateUser (db : DB) (vid uid : Nat) (f : User → User) :
    findVideo (updateUser db uid f) vid = findVideo db vid := rfl

lemma findUser_updateJob (db : DB) (uid jid : Nat) (f : Job → Job) :
    findUser (updateJob db jid f) uid = findUser db uid := rfl

lemma findUser_updateVideo (db : DB) (uid vid : Nat) (f : Video → Video) :
    findUser (updateVideo db vid f) uid = findUser db uid := rfl

lemma findVideo_applyMonitorWrites (db : DB) (jid vid : Nat) (last : ℚ)
    (lines : List (ℚ × ℚ)) :
    findVideo (applyMonitorWrites db jid last lines) vid = findVideo db vid := by
  unfold findVideo
  rw [applyMonitorWrites_videos]

lemma findUser_applyMonitorWrites (db : DB) (jid uid : Nat) (last : ℚ)
    (lines : List (ℚ × ℚ)) :
    findUser (applyMonitorWrites db jid last lines) uid = findUser db uid := by
  unfold findUser
  rw [applyMonitorWrites_users]

lemma findJob_mark_job_failed (db : DB) (jid : Nat) (msg : String)
    (trace : Option String) (now : Nat) :
    findJob (mark_job_failed db jid msg trace now) jid
      = (findJob db jid).map (fun j =>
          { j with status := .failed, errorMessage := some msg,
                   errorTrace := match trace with
                     | some t => some (t.take 5000)
                     | none => j.errorTrace,
                   completedAt := some now }) := by
  unfold mark_job_failed
  cases hfj : findJob db jid with
  | none => rw [hfj]; rfl
  | some job =>
    dsimp only
    split_ifs with h
    · rw [findJob_updateVideo, findJob_updateJob, hfj]
      intro j; rfl
    · rw [findJob_updateJob, hfj]
      intro j; rfl

lemma map_fileSize_updateVideo (db : DB) (vid : Nat) (f : Video → Video)
    (hf : ∀ v, (f v).fileSize = v.fileSize) :
    (updateVideo db vid f).videos.map Video.fileSize
      = db.videos.map Video.fileSize := by
  unfold updateVideo
  dsimp only
  rw [List.map_map]
  apply List.map_congr_left
  intro v _
  by_cases h : v.id = vid
  · simp [h, hf v]
  · simp [h]

lemma mark_job_failed_fileSizes (db : DB) (jid : Nat) (msg : String)
    (trace : Option String) (now : Nat) :
    (mark_job_failed db jid msg trace now).videos.map Video.fileSize
      = db.videos.map Video.fileSize := by
  unfold mark_job_failed
  cases findJob db jid with
  | none => rfl
  | some job =>
    dsimp only
    split_ifs with h
    · rw [map_fileSize_updateVideo]
      · rfl
      · intro v; rfl
    · rfl

/-- Shorthand for the database state after the initial running/progress-0
write, the progress-5 write and the monitor writes of one execution. -/
def dbAfterMonitor (db : DB) (jid : Nat) (env : WorkerEnv) : DB :=
  applyMonitorWrites
    (update_job_progress
      (updateJob db jid (fun j =>
        { j with status := .running, currentStep := "Initializing download",
                 progress := 0 }))
      jid 5 "Starting download")
    jid env.t0 env.lines

lemma dbAfterMonitor_videos (db : DB) (jid : Nat) (env : WorkerEnv) :
    (dbAfterMonitor db jid env).videos = db.videos := by
  unfold dbAfterMonitor
  rw [applyMonitorWrites_videos]
  rfl

lemma dbAfterMonitor_users (db : DB) (jid : Nat) (env : WorkerEnv) :
    (dbAfterMonitor db jid env).users = db.users := by
  unfold dbAfterMonitor
  rw [applyMonitorWrites_users]
  rfl

lemma findJob_dbAfterMonitor (db : DB) (jid : Nat) (env : WorkerEnv)
    (job : Job) (hj : findJob db jid = some job) :
    ∃ p s, findJob (dbAfterMonitor db jid env) jid
      = some { job with status := .running, progress := p,
                        currentStep := s } := by
  obtain ⟨g, hg, he⟩ := applyMonitorWrites_shape jid env.lines
    (update_job_progress
      (updateJob db jid (fun j =>
        { j with status := .running, currentStep := "Initializing download",
                 progress := 0 }))
      jid 5 "Starting download") env.t0
  unfold dbAfterMonitor
  rw [he,
    show update_job_progress
      (updateJob db jid (fun j =>
        { j with status := .running, currentStep := "Initializing download",
                 progress := 0 }))
      jid 5 "Starting download"
      = updateJob (updateJob db jid (fun j =>
          { j with status := .running, currentStep := "Initializing download",
                   progress := 0 }))
          jid (fun j =>
          { j with progress := min 5 100, currentStep := "Starting download" })
      from rfl,
    updateJob_comp, updateJob_comp, findJob_updateJob, hj]
  · obtain ⟨p, s, h2⟩ := hg
      { job with status := .running, currentStep := "Starting download",
                 progress := min 5 100 }
    exact ⟨p, s, congrArg some h2⟩
  all_goals intro j
  all_goals first
    | rfl
    | exact progressOnly_fixes_id hg _

/-- **C3 (amended)**: the kill-and-fail behavior holds exactly on the
`TimeoutExpired` path: when `process.wait(timeout=...)` raises — that is,
the process closed its stdout but did not exit within the configured
budget — the process is forcibly killed, the execution reports failure,
the job is finalized to status `failed` with the timeout-specific message
`Unexpected error: Command <cmd> timed out after <timeout> seconds`
carried by `str(TimeoutExpired)`, and no video row has its `file_size`
changed.  The configured timeout does not bound the streaming phase of
the process — the `for line in process.stdout` loop is unbounded — so the
original claim, quantified over every wall-clock overrun, fails: see the
counterexample below. -/
theorem timeout_kills_and_fails_job (db : DB) (jid : Nat) (env : WorkerEnv)
    (job : Job) (video : Video)
    (hj : findJob db jid = some job)
    (hv : findVideo db job.videoId = some video)
    (ht : env.outcome = .timedOut) :
    (execute_download db jid env).1 = false
    ∧ (execute_download_subprocess env).2 = true
    ∧ (findJob (execute_download db jid env).2.1 jid).map Job.status
        = some .failed
    ∧ (findJob (execute_download db jid env).2.1 jid).map Job.errorMessage
        = some (some ("Unexpected error: "
            ++ timeoutExpiredStr env.cmdStr env.timeoutSecs))
    ∧ (execute_download db jid env).2.1.videos.map Video.fileSize
        = db.videos.map Video.fileSize := by
  have hsub : execute_download_subprocess env = (.timeoutExpired, true) := by
    simp [execute_download_subprocess, ht]
  have hrun : execute_download db jid env
      = (false,
          mark_job_failed (dbAfterMonitor db jid env) jid
            ("Unexpected error: "
              ++ timeoutExpiredStr env.cmdStr env.timeoutSecs)
            (some env.traceText) env.now,
          0 :: 5 :: progressWrites env.t0 env.lines) := by
    simp only [execute_download, hj, hv, hsub]
    rfl
  obtain ⟨p, s, hfind⟩ := findJob_dbAfterMonitor db jid env job hj
  refine ⟨by rw [hrun], by rw [hsub], ?_, ?_, ?_⟩
  · rw [hrun]
    dsimp only
    rw [findJob_mark_job_failed, hfind]
    rfl
  · rw [hrun]
    dsimp only
    rw [findJob_mark_job_failed, hfind]
    rfl
  · rw [hrun]
    dsimp only
    rw [mark_job_failed_fileSizes, dbAfterMonitor_videos]

/-- Witness for C3 at the concrete one-job database and timed-out run. -/
theorem timeout_kills_and_fails_job_witness :
    (execute_download demoDB 1 timeoutEnv).1 = false
    ∧ (execute_download_subprocess timeoutEnv).2 = true
    ∧ (findJob (execute_download demoDB 1 timeoutEnv).2.1 1).map Job.status
        = some .failed
    ∧ (findJob (execute_download demoDB 1 timeoutEnv).2.1 1).map
        Job.errorMessage
        = some (some ("Unexpected error: "
            ++ timeoutExpiredStr timeoutEnv.cmdStr timeoutEnv.timeoutSecs))
    ∧ (execute_download demoDB 1 timeoutEnv).2.1.videos.map Video.fileSize
        = demoDB.videos.map Video.fileSize :=
  timeout_kills_and_fails_job demoDB 1 timeoutEnv demoJob demoVideo
    (by rfl) (by rfl) (by rfl)

/-- **C3 counterexample**: the original claim is false — the configured
timeout does not bound the wall clock of a streaming fetch process.  The
source applies `timeout` only to `process.wait`, which runs after the
unbounded `for line in process.stdout` loop reaches EOF, so a process
that is still emitting output at wall-clock time 10000, far beyond the
300-second budget that started at time 0, is never killed; here it later
exits 0 and the job is finalized `completed` with the artifact size
updated, not `failed`. -/
theorem wallclock_timeout_not_enforced_counterexample :
    overtimeEnv.t0 = 0
    ∧ overtimeEnv.timeoutSecs = 300
    ∧ ((10000 : ℚ), (0 : ℚ)) ∈ overtimeEnv.lines
    ∧ (300 : ℚ) < 10000
    ∧ (execute_download_subprocess overtimeEnv).2 = false
    ∧ (execute_download demoDB 1 overtimeEnv).1 = true
    ∧ (findJob (execute_download demoDB 1 overtimeEnv).2.1 1).map Job.status
        = some .completed
    ∧ (findVideo (execute_download demoDB 1 overtimeEnv).2.1 10).map
        Video.fileSize = some 4096 := by
  decide

/-- **C2** (code bug): on a size-limit failure with a partial file present
on disk, the worker does not preserve it: `_handle_subprocess_error` always
receives `temp_file = None` because `temp_output_path` is only assigned by
a successful return of `_execute_download_subprocess`, which instead raised
`CalledProcessError`.  The artifact therefore ends with `status = error`,
`file_size = 0` and no checksum even though a 5000-byte partial file
exists, while the stored error message still tells the user the partial
download has been saved. -/
theorem size_limit_partial_not_preserved :
    (execute_download demoDB 1 sizeLimitEnv).1 = false
    ∧ containsSub sizeLimitEnv.output "max-filesize" = true
    ∧ sizeLimitEnv.leftoverOnDisk = true
    ∧ sizeLimitEnv.leftoverSize = 5000
    ∧ (findVideo (execute_download demoDB 1 sizeLimitEnv).2.1 10).map
        Video.fileSize = some 0
    ∧ (findVideo (execute_download demoDB 1 sizeLimitEnv).2.1 10).map
        Video.checksum = some none
    ∧ (findVideo (execute_download demoDB 1 sizeLimitEnv).2.1 10).map
        Video.status = some .error
    ∧ (findJob (execute_download demoDB 1 sizeLimitEnv).2.1 1).map
        Job.errorMessage = some (some sizeLimitMsg)
    ∧ containsSub sizeLimitMsg "Partial download has been saved." = true := by
  decide

lemma update_job_progress_users (db : DB) (jid : Nat) (p : ℚ) (s : String) :
    (update_job_progress db jid p s).users = db.users := rfl

lemma update_job_progress_videos (db : DB) (jid : Nat) (p : ℚ) (s : String) :
    (update_job_progress db jid p s).videos = db.videos := rfl

lemma findVideo_update_job_progress (db : DB) (jid vid : Nat) (p : ℚ)
    (s : String) :
    findVideo (update_job_progress db jid p s) vid = findVideo db vid := rfl

lemma findUser_update_job_progress (db : DB) (jid uid : Nat) (p : ℚ)
    (s : String) :
    findUser (update_job_progress db jid p s) uid = findUser db uid := rfl

lemma findJob_update_job_progress (db : DB) (jid : Nat) (p : ℚ) (s : String) :
    findJob (update_job_progress db jid p s) jid
      = (findJob db jid).map (fun j =>
          { j with progress := min p 100, currentStep := s }) := by
  unfold update_job_progress
  rw [findJob_updateJob]
  intro j; rfl

lemma findVideo_dbAfterMonitor (db : DB) (jid : Nat) (env : WorkerEnv)
    (vid : Nat) :
    findVideo (dbAfterMonitor db jid env) vid = findVideo db vid := by
  unfold findVideo
  rw [dbAfterMonitor_videos]

lemma findUser_dbAfterMonitor (db : DB) (jid : Nat) (env : WorkerEnv)
    (uid : Nat) :
    findUser (dbAfterMonitor db jid env) uid = findUser db uid := by
  unfold findUser
  rw [dbAfterMonitor_users]

lemma execute_download_failure_users (db : DB) (jid : Nat) (env : WorkerEnv)
    (hfail : (execute_download db jid env).1 = false) :
    (execute_download db jid env).2.1.users = db.users := by
  cases hj : findJob db jid with
  | none => simp only [execute_download, hj]
  | some job =>
    cases hv : findVideo db job.videoId with
    | none => simp only [execute_download, hj, hv]
    | some video =>
      rcases hs : execute_download_subprocess env with ⟨res, k⟩
      cases res with
      | timeoutExpired =>
        simp only [execute_download, hj, hv, hs]
        rw [mark_job_failed_users, applyMonitorWrites_users,
          update_job_progress_users, updateJob_users]
      | calledProcessError o =>
        simp only [execute_download, hj, hv, hs]
        rw [handle_subprocess_error_users, applyMonitorWrites_users,
          update_job_progress_users, updateJob_users]
      | ok found =>
        cases found with
        | none =>
          simp only [execute_download, hj, hv, hs]
          rw [mark_job_failed_users, applyMonitorWrites_users,
            update_job_progress_users, updateJob_users]
        | some f =>
          cases hmv : env.moveOk with
          | true =>
            exfalso
            rw [show (execute_download db jid env).1 = true by
              simp only [execute_download, hj, hv, hs, hmv, if_true]] at hfail
            exact absurd hfail (by simp)
          | false =>
            simp only [execute_download, hj, hv, hs, hmv, if_false,
              Bool.false_eq_true]
            rw [mark_job_failed_users, update_job_progress_users,
              update_job_progress_users, applyMonitorWrites_users,
              update_job_progress_users, updateJob_users]

/-- **C5**: when the fetch process exits 0 and the output file is found,
finalization (one transaction in the source) sets the video to `ready` with
the final path, size and checksum, sets the job to `completed` with
progress 100, and adds exactly the artifact size to the owning user
`storage_used` counter; on every failing execution the users table is
untouched, so the quota is mutated at no other point of the execution. -/
theorem success_finalization_spec (db : DB) (jid : Nat) (env : WorkerEnv)
    (job : Job) (video : Video) (user : User)
    (hj : findJob db jid = some job)
    (hv : findVideo db job.videoId = some video)
    (hu : findUser db video.userId = some user)
    (hc : env.outcome = .exited 0)
    (hff : env.foundFile.isSome = true)
    (hm : env.moveOk = true) :
    (execute_download db jid env).1 = true
    ∧ findVideo (execute_download db jid env).2.1 job.videoId
        = some { video with status := .ready, filePath := env.finalPath,
                            fileSize := env.fileSize,
                            checksum := some env.checksum,
                            errorMessage := none }
    ∧ findJob (execute_download db jid env).2.1 jid
        = some { job with status := .completed, progress := 100,
                          currentStep := "Completed",
                          completedAt := some env.now }
    ∧ findUser (execute_download db jid env).2.1 video.userId
        = some { user with storageUsed := user.storageUsed + env.fileSize }
    ∧ (∀ db2 jid2 env2, (execute_download db2 jid2 env2).1 = false →
        (execute_download db2 jid2 env2).2.1.users = db2.users) := by
  obtain ⟨file, hfile⟩ := Option.isSome_iff_exists.mp hff
  have hsub : execute_download_subprocess env = (.ok (some file), false) := by
    simp [execute_download_subprocess, hc, hfile]
  have hrun : execute_download db jid env
      = (true,
          updateUser
            (updateJob
              (updateVideo
                (update_job_progress
                  (update_job_progress
                    (update_job_progress (dbAfterMonitor db jid env)
                      jid 70 "Calculating checksum")
                    jid 80 "Moving to storage")
                  jid 90 "Updating database")
                job.videoId (fun v =>
                  { v with status := .ready, filePath := env.finalPath,
                           fileSize := env.fileSize,
                           checksum := some env.checksum,
                           errorMessage := none }))
              jid (fun j =>
                { j with status := .completed, progress := 100,
                         currentStep := "Completed",
                         completedAt := some env.now }))
            video.userId (fun u =>
              { u with storageUsed := u.storageUsed + env.fileSize }),
          (0 :: 5 :: progressWrites env.t0 env.lines) ++ [70, 80, 90, 100]) := by
    simp only [execute_download, hj, hv, hsub, hm, if_true]
    rfl
  obtain ⟨p, s, hfind⟩ := findJob_dbAfterMonitor db jid env job hj
  refine ⟨by rw [hrun], ?_, ?_, ?_, ?_⟩
  · rw [hrun]
    dsimp only
    rw [findVideo_updateUser, findVideo_updateJob, findVideo_updateVideo,
      findVideo_update_job_progress, findVideo_update_job_progress,
      findVideo_update_job_progress, findVideo_dbAfterMonitor, hv]
    · rfl
    · intro v; rfl
  · rw [hrun]
    dsimp only
    rw [findJob_updateUser, findJob_updateJob, findJob_updateVideo,
      findJob_update_job_progress, findJob_update_job_progress,
      findJob_update_job_progress, hfind]
    · rfl
    · intro j; rfl
  · rw [hrun]
    dsimp only
    rw [findUser_updateUser, findUser_updateJob, findUser_updateVideo,
      findUser_update_job_progress, findUser_update_job_progress,
      findUser_update_job_progress, findUser_dbAfterMonitor, hu]
    · rfl
    · intro u; rfl
  · intro db2 jid2 env2 hfail
    exact execute_download_failure_users db2 jid2 env2 hfail

/-- Witness for C5 at the concrete one-job database and successful run. -/
theorem success_finalization_spec_witness :
    (execute_download demoDB 1 successEnv).1 = true
    ∧ findVideo (execute_download demoDB 1 successEnv).2.1 demoJob.videoId
        = some { demoVideo with status := .ready,
                                filePath := successEnv.finalPath,
                                fileSize := successEnv.fileSize,
                                checksum := some successEnv.checksum,
                                errorMessage := none }
    ∧ findJob (execute_download demoDB 1 successEnv).2.1 1
        = some { demoJob with status := .completed, progress := 100,
                              currentStep := "Completed",
                              completedAt := some successEnv.now }
    ∧ findUser (execute_download demoDB 1 successEnv).2.1 demoVideo.userId
        = some { demoUser with
                   storageUsed := demoUser.storageUsed + successEnv.fileSize }
    ∧ (∀ db2 jid2 env2, (execute_download db2 jid2 env2).1 = false →
        (execute_download db2 jid2 env2).2.1.users = db2.users) :=
  success_finalization_spec demoDB 1 successEnv demoJob demoVideo demoUser
    (by rfl) (by rfl) (by rfl) (by rfl) (by rfl) (by rfl)

lemma progressWrites_sublist (lines : List (ℚ × ℚ)) :
    ∀ last : ℚ, List.Sublist (progressWrites last lines)
      (lines.map (fun q => min (scaledProgress q.2) 100)) := by
  induction lines with
  | nil => intro last; simp [progressWrites]
  | cons hd tl ih =>
    intro last
    obtain ⟨t, p⟩ := hd
    simp only [progressWrites, List.map_cons]
    split_ifs with hc
    · exact List.Sublist.cons₂ _ (ih t)
    · exact List.Sublist.cons _ (ih last)

lemma scaled_write_bounds (p : ℚ) (h0 : 0 ≤ p) (h100 : p ≤ 100) :
    5 ≤ min (scaledProgress p) 100 ∧ min (scaledProgress p) 100 ≤ 70 := by
  unfold scaledProgress
  constructor
  · apply le_min
    · nlinarith
    · norm_num
  · calc min (5 + p * (65 / 100)) 100 ≤ 5 + p * (65 / 100) :=
        min_le_left _ _
    _ ≤ 70 := by nlinarith

lemma progressWrites_chain (lines : List (ℚ × ℚ)) (last : ℚ)
    (hmono : List.Chain' (fun a b : ℚ × ℚ => a.2 ≤ b.2) lines) :
    List.Chain' (· ≤ ·) (progressWrites last lines) := by
  have hmap : List.Chain' (· ≤ ·)
      (lines.map (fun q => min (scaledProgress q.2) 100)) := by
    rw [List.chain'_map]
    refine List.Chain'.imp ?_ hmono
    intro a b hab
    unfold scaledProgress
    have h2 : a.2 * (65 / 100) ≤ b.2 * (65 / 100) := by nlinarith
    exact min_le_min (by linarith) le_rfl
  exact hmap.sublist (progressWrites_sublist lines last)

lemma progressWrites_mem (lines : List (ℚ × ℚ)) (last : ℚ)
    (hbound : ∀ q ∈ lines, 0 ≤ q.2 ∧ q.2 ≤ 100) :
    ∀ v ∈ progressWrites last lines, 5 ≤ v ∧ v ≤ 70 := by
  intro v hv
  have hv2 : v ∈ lines.map (fun q => min (scaledProgress q.2) 100) :=
    (progressWrites_sublist lines last).subset hv
  rcases List.mem_map.1 hv2 with ⟨q, hq, rfl⟩
  exact scaled_write_bounds q.2 (hbound q hq).1 (hbound q hq).2

lemma writes_log_ok (t0 : ℚ) (lines : List (ℚ × ℚ)) (suffix : List ℚ)
    (hmono : List.Chain' (fun a b : ℚ × ℚ => a.2 ≤ b.2) lines)
    (hbound : ∀ q ∈ lines, 0 ≤ q.2 ∧ q.2 ≤ 100)
    (hsuf : suffix = [] ∨ suffix = [70, 80] ∨ suffix = [70, 80, 90, 100]) :
    List.Chain' (· ≤ ·) ((0 : ℚ) :: 5 :: (progressWrites t0 lines ++ suffix))
    ∧ ∀ v ∈ (0 : ℚ) :: 5 :: (progressWrites t0 lines ++ suffix),
        0 ≤ v ∧ v ≤ 100 := by
  have hW_chain := progressWrites_chain lines t0 hmono
  have hW_mem := progressWrites_mem lines t0 hbound
  have hS_chain : List.Chain' (· ≤ ·) suffix := by
    rcases hsuf with rfl | rfl | rfl
    · exact List.chain'_nil
    · simp [List.chain'_cons]; norm_num
    · simp [List.chain'_cons]; norm_num
  have hS_mem : ∀ v ∈ suffix, (0 : ℚ) ≤ v ∧ v ≤ 100 := by
    rcases hsuf with rfl | rfl | rfl
    · simp
    · intro v hv
      simp only [List.mem_cons, List.not_mem_nil, or_false] at hv
      rcases hv with rfl | rfl <;> norm_num
    · intro v hv
      simp only [List.mem_cons, List.not_mem_nil, or_false] at hv
      rcases hv with rfl | rfl | rfl | rfl <;> norm_num
  have hS_head : ∀ y ∈ suffix.head?, (5 : ℚ) ≤ y ∧ (70 : ℚ) ≤ y := by
    rcases hsuf with rfl | rfl | rfl
    · simp
    · intro y hy; simp at hy; subst hy; norm_num
    · intro y hy; simp at hy; subst hy; norm_num
  constructor
  · rw [List.chain'_cons]
    refine ⟨by norm_num, ?_⟩
    rw [List.chain'_cons']
    constructor
    · intro y hy
      cases hW : progressWrites t0 lines with
      | nil =>
        rw [hW] at hy
        simp only [List.nil_append] at hy
        exact (hS_head y hy).1
      | cons w ws =>
        rw [hW] at hy
        simp only [List.cons_append, List.head?_cons, Option.mem_def,
          Option.some.injEq] at hy
        subst hy
        exact (hW_mem _ (by rw [hW]; exact List.mem_cons_self _ _)).1
    · rw [List.chain'_append]
      refine ⟨hW_chain, hS_chain, ?_⟩
      intro x hx y hy
      have hx2 : x ∈ progressWrites t0 lines :=
        List.mem_of_mem_getLast? hx
      have := (hW_mem x hx2).2
      have := (hS_head y hy).2
      linarith
  · intro v hv
    rcases List.mem_cons.1 hv with rfl | hv
    · norm_num
    rcases List.mem_cons.1 hv with rfl | hv
    · norm_num
    rcases List.mem_append.1 hv with hv | hv
    · have := hW_mem v hv
      constructor <;> linarith [this.1, this.2]
    · exact hS_mem v hv

/-- **C8 (amended)**: every value written through `_update_job_progress` is
capped at 100, and whenever the percent values parsed from the fetch
process output are non-decreasing and lie in [0, 100] — as they do for a
single-stream download — the full sequence of progress values written to
the job row over one execution is monotonically non-decreasing and every
written value lies in [0, 100].  Without that hypothesis on the external
process the property fails, because the code applies no monotonicity
guard (see the counterexample). -/
theorem progress_writes_amended (db : DB) (jid : Nat) (env : WorkerEnv)
    (hmono : List.Chain' (fun a b : ℚ × ℚ => a.2 ≤ b.2) env.lines)
    (hbound : ∀ q ∈ env.lines, 0 ≤ q.2 ∧ q.2 ≤ 100) :
    List.Chain' (· ≤ ·) (execute_download db jid env).2.2
    ∧ ∀ v ∈ (execute_download db jid env).2.2, 0 ≤ v ∧ v ≤ 100 := by
  cases hj : findJob db jid with
  | none => simp [execute_download, hj]
  | some job =>
    cases hv : findVideo db job.videoId with
    | none => simp [execute_download, hj, hv]
    | some video =>
      rcases hs : execute_download_subprocess env with ⟨res, k⟩
      cases res with
      | timeoutExpired =>
        simp only [execute_download, hj, hv, hs]
        have := writes_log_ok env.t0 env.lines [] hmono hbound (Or.inl rfl)
        simpa using this
      | calledProcessError o =>
        simp only [execute_download, hj, hv, hs]
        have := writes_log_ok env.t0 env.lines [] hmono hbound (Or.inl rfl)
        simpa using this
      | ok found =>
        cases found with
        | none =>
          simp only [execute_download, hj, hv, hs]
          have := writes_log_ok env.t0 env.lines [] hmono hbound (Or.inl rfl)
          simpa using this
        | some f =>
          cases hmv : env.moveOk with
          | true =>
            simp only [execute_download, hj, hv, hs, hmv, if_true]
            have := writes_log_ok env.t0 env.lines [70, 80, 90, 100] hmono
              hbound (Or.inr (Or.inr rfl))
            simpa using this
          | false =>
            simp only [execute_download, hj, hv, hs, hmv, if_false,
              Bool.false_eq_true]
            have := writes_log_ok env.t0 env.lines [70, 80] hmono hbound
              (Or.inr (Or.inl rfl))
            simpa using this

/-- Witness for the amended C8 at a concrete run with no progress lines. -/
theorem progress_writes_amended_witness :
    List.Chain' (· ≤ ·) (execute_download demoDB 1 successEnv).2.2
    ∧ ∀ v ∈ (execute_download demoDB 1 successEnv).2.2, 0 ≤ v ∧ v ≤ 100 :=
  progress_writes_amended demoDB 1 successEnv (by simp [successEnv, sizeLimitEnv])
    (by simp [successEnv, sizeLimitEnv])

/-- **C8 counterexample**: the claim as stated is false.  A run whose
parsed percent stream is 100 followed by 1 — exactly what yt-dlp emits
when it downloads the video stream to completion and then starts the audio
stream — produces the written progress sequence 0, 5, 70, 5.65, which is
not monotonically non-decreasing. -/
theorem progress_not_monotone_counterexample :
    ¬ (List.Chain' (· ≤ ·) (execute_download demoDB 1 resetEnv).2.2
       ∧ ∀ v ∈ (execute_download demoDB 1 resetEnv).2.2, 0 ≤ v ∧ v ≤ 100) := by
  have hlog : (execute_download demoDB 1 resetEnv).2.2
      = [0, 5, 70, 113 / 20] := by
    norm_num [execute_download, demoDB, demoJob, demoVideo, findJob, findVideo,
      resetEnv, sizeLimitEnv, execute_download_subprocess, progressWrites,
      scaledProgress, List.find?]
  intro h
  rcases h with ⟨hchain, _⟩
  rw [hlog] at hchain
  simp only [List.chain'_cons, List.chain'_singleton, and_true] at hchain
  norm_num at hchain


/-! ## Download manager (`backend/workers/download_manager.py`)

The scheduler is modelled as a transition system.  A state carries the
configured pool size, the job table, the in-flight registry
`active_jobs` — each entry a job id paired with a flag telling whether the
executor has started running its future (a future can be cancelled only
before that) — and the chronological log of job ids submitted to the
executor.  Each mutex-guarded critical section of the source becomes one
atomic step. -/

/-- The filter of the scheduling query: `job_type == 'download'` and
`status == 'pending'`. -/
def isPendingDownload (j : Job) : Bool :=
  decide (j.jobType = "download" ∧ j.status = JobStatus.pending)

/-- The ORDER BY of `_schedule_pending_jobs`: priority descending, then
creation time ascending. -/
def schedLE (a b : Job) : Prop :=
  b.priority < a.priority ∨ (a.priority = b.priority ∧ a.createdAt ≤ b.createdAt)

instance : DecidableRel schedLE := fun a b =>
  inferInstanceAs (Decidable (b.priority < a.priority
    ∨ (a.priority = b.priority ∧ a.createdAt ≤ b.createdAt)))

instance : IsTotal Job schedLE := by
  constructor
  intro a b
  rcases lt_trichotomy a.priority b.priority with h | h | h
  · exact Or.inr (Or.inl h)
  · rcases le_total a.createdAt b.createdAt with h2 | h2
    · exact Or.inl (Or.inr ⟨h, h2⟩)
    · exact Or.inr (Or.inr ⟨h.symm, h2⟩)
  · exact Or.inl (Or.inl h)

instance : IsTrans Job schedLE := by
  constructor
  intro a b c hab hbc
  rcases hab with hab | ⟨hab, hab2⟩
  · rcases hbc with hbc | ⟨hbc, hbc2⟩
    · exact Or.inl (lt_trans hbc hab)
    · exact Or.inl (hbc ▸ hab)
  · rcases hbc with hbc | ⟨hbc, hbc2⟩
    · exact Or.inl (hab ▸ hbc)
    · exact Or.inr ⟨hab.trans hbc, hab2.trans hbc2⟩

/-- The scheduling query of `_schedule_pending_jobs`: pending download
jobs, ordered by (priority desc, created_at asc), limited to `count`. -/
def pending_jobs_query (jobs : List Job) (count : Nat) : List Job :=
  (List.insertionSort schedLE (jobs.filter isPendingDownload)).take count

/-- Scheduler state: pool size, job table, in-flight registry and the log
of executor submissions. -/
structure ManagerState where
  maxWorkers : Nat
  jobs : List Job
  active : List (Nat × Bool)
  submitted : List Nat
deriving DecidableEq

/-- Write a status onto the job row with the given id. -/
def setJobStatus (jobs : List Job) (jid : Nat) (st : JobStatus) : List Job :=
  jobs.map (fun j => if j.id = jid then { j with status := st } else j)

/-- Flip every selected job to `running`, as the scheduling loop does one
commit per selected job. -/
def setRunningAll (jobs : List Job) (ids : List Nat) : List Job :=
  jobs.map (fun j => if j.id ∈ ids then { j with status := .running } else j)

/-- One pass of the poll loop (`_poll_pending_jobs` body plus
`_schedule_pending_jobs`): compute `available = max_workers -
len(active_jobs)` under the lock; when positive, fetch up to `available`
pending download jobs in order and, for each, submit it to the pool,
register the handle and flip the row to `running`. -/
def poll_pass (s : ManagerState) : ManagerState :=
  let available := s.maxWorkers - s.active.length
  if 0 < available then
    let sel := pending_jobs_query s.jobs available
    { s with
      jobs := setRunningAll s.jobs (sel.map Job.id),
      active := s.active ++ sel.map (fun j => (j.id, false)),
      submitted := s.submitted ++ sel.map Job.id }
  else s

/-- The executor picks up a submitted future and starts running it; from
this point `Future.cancel()` fails. -/
def start_execution (s : ManagerState) (jid : Nat) : ManagerState :=
  { s with active := s.active.map (fun p => if p.1 = jid then (p.1, true) else p) }

/-- A worker finishes one job: the worker writes the terminal status and
the completion callback `_cleanup_job` pops the job from the in-flight
registry. -/
def finish_job (s : ManagerState) (jid : Nat) (st : JobStatus) : ManagerState :=
  { s with jobs := setJobStatus s.jobs jid st,
           active := s.active.filter (fun p => decide (p.1 ≠ jid)) }

/-- External submission adds a fresh `pending` job row. -/
def submit_job (s : ManagerState) (j : Job) : ManagerState :=
  { s with jobs := s.jobs ++ [j] }

/-- Model of `DownloadManager.cancel_job`: when the job is in the in-flight
registry, try `Future.cancel()` — when it succeeds (the future had not
started), the done callback pops the registry entry and the row is flipped
to `cancelled`, returning true; a started future cannot be cancelled,
returning false.  When the job is not in the registry, a row that is still
`pending` is flipped to `cancelled` (true); otherwise nothing happens
(false). -/
def cancel_job (s : ManagerState) (jid : Nat) : Bool × ManagerState :=
  match s.active.find? (fun p => decide (p.1 = jid)) with
  | some p =>
    if p.2 then (false, s)
    else
      (true, { s with jobs := setJobStatus s.jobs jid .cancelled,
                      active := s.active.filter (fun q => decide (q.1 ≠ jid)) })
  | none =>
    if (s.jobs.find? (fun j =>
        decide (j.id = jid ∧ j.status = JobStatus.pending))).isSome then
      (true, { s with jobs := setJobStatus s.jobs jid .cancelled })
    else (false, s)

/-- Reachable scheduler states: start empty with some pool size, then
interleave submissions, poll passes, future starts, worker completions
(workers always finalize to `completed` or `failed`, per
`execute_download`) and cancellations.  Submissions carry the database
guarantees: new rows are `pending` with a fresh primary key. -/
inductive Reach : ManagerState → Prop where
  | init (w : Nat) : Reach ⟨w, [], [], []⟩
  | submit {s : ManagerState} (j : Job) (hp : j.status = .pending)
      (hid : ∀ j2 ∈ s.jobs, j2.id ≠ j.id) (h : Reach s) :
      Reach (submit_job s j)
  | poll {s : ManagerState} (h : Reach s) : Reach (poll_pass s)
  | start {s : ManagerState} (jid : Nat) (h : Reach s) :
      Reach (start_execution s jid)
  | finish {s : ManagerState} (jid : Nat) (st : JobStatus)
      (hst : st = .completed ∨ st = .failed)
      (hin : (jid, true) ∈ s.active) (h : Reach s) :
      Reach (finish_job s jid st)
  | cancel {s : ManagerState} (jid : Nat) (h : Reach s) :
      Reach (cancel_job s jid).2

/-- The inductive invariant of the scheduler: the registry is bounded by
the pool size, primary keys and registry keys are unique, the `running`
rows are exactly backed by registry entries, and the submission log only
holds jobs that have left `pending`, each at most once. -/
structure SchedInv (s : ManagerState) : Prop where
  activeBound : s.active.length ≤ s.maxWorkers
  idsNodup : (s.jobs.map Job.id).Nodup
  activeNodup : (s.active.map Prod.fst).Nodup
  runningActive : ∀ j ∈ s.jobs, j.status = .running →
    j.id ∈ s.active.map Prod.fst
  activeRunning : ∀ p ∈ s.active, ∃ j ∈ s.jobs, j.id = p.1
    ∧ j.status = .running
  submittedDone : ∀ i ∈ s.submitted, ∃ j ∈ s.jobs, j.id = i
    ∧ j.status ≠ .pending
  submittedNodup : s.submitted.Nodup

lemma pending_query_mem {jobs : List Job} {count : Nat} {j : Job}
    (hj : j ∈ pending_jobs_query jobs count) :
    j ∈ jobs ∧ isPendingDownload j = true := by
  unfold pending_jobs_query at hj
  have h1 : j ∈ List.insertionSort schedLE (jobs.filter isPendingDownload) :=
    (List.take_sublist _ _).subset hj
  have h2 : j ∈ jobs.filter isPendingDownload :=
    (List.perm_insertionSort schedLE _).subset h1
  exact ⟨List.mem_of_mem_filter h2, List.of_mem_filter h2⟩

lemma pending_query_length (jobs : List Job) (count : Nat) :
    (pending_jobs_query jobs count).length ≤ count := by
  unfold pending_jobs_query
  exact List.length_take_le _ _

lemma pending_query_sorted (jobs : List Job) (count : Nat) :
    List.Sorted schedLE (pending_jobs_query jobs count) := by
  unfold pending_jobs_query
  exact List.Pairwise.sublist (List.take_sublist _ _)
    (List.sorted_insertionSort schedLE _)

lemma pending_query_ids_nodup {jobs : List Job} (count : Nat)
    (h : (jobs.map Job.id).Nodup) :
    ((pending_jobs_query jobs count).map Job.id).Nodup := by
  unfold pending_jobs_query
  have h1 : ((jobs.filter isPendingDownload).map Job.id).Nodup :=
    List.Sublist.nodup (List.Sublist.map _ (List.filter_sublist _)) h
  have h2 : ((List.insertionSort schedLE
      (jobs.filter isPendingDownload)).map Job.id).Nodup :=
    (List.Perm.map Job.id (List.perm_insertionSort schedLE _)).symm.nodup h1
  exact List.Sublist.nodup (List.Sublist.map _ (List.take_sublist _ _)) h2

lemma pending_query_minimal {jobs : List Job} {count : Nat} {a b : Job}
    (ha : a ∈ pending_jobs_query jobs count) (hb : b ∈ jobs)
    (hbp : isPendingDownload b = true)
    (hbn : b ∉ pending_jobs_query jobs count) :
    schedLE a b := by
  unfold pending_jobs_query at ha hbn
  set L := List.insertionSort schedLE (jobs.filter isPendingDownload) with hL
  have hbL : b ∈ L :=
    (List.perm_insertionSort schedLE _).symm.subset
      (List.mem_filter.2 ⟨hb, hbp⟩)
  have hsorted : List.Pairwise schedLE L := List.sorted_insertionSort schedLE _
  have hsplit := List.take_append_drop count L
  rw [← hsplit] at hsorted
  have hpair := (List.pairwise_append.1 hsorted).2.2
  have hbdrop : b ∈ L.drop count := by
    rcases (List.mem_append.1 (by rw [hsplit]; exact hbL)) with h | h
    · exact absurd h hbn
    · exact h
  exact hpair a ha b hbdrop

lemma setJobStatus_map_id (jobs : List Job) (jid : Nat) (st : JobStatus) :
    (setJobStatus jobs jid st).map Job.id = jobs.map Job.id := by
  unfold setJobStatus
  rw [List.map_map]
  apply List.map_congr_left
  intro j _
  by_cases h : j.id = jid <;> simp [h]

lemma setRunningAll_map_id (jobs : List Job) (ids : List Nat) :
    (setRunningAll jobs ids).map Job.id = jobs.map Job.id := by
  unfold setRunningAll
  rw [List.map_map]
  apply List.map_congr_left
  intro j _
  by_cases h : j.id ∈ ids <;> simp [h]

lemma id_unique {jobs : List Job} (h : (jobs.map Job.id).Nodup)
    {j1 j2 : Job} (h1 : j1 ∈ jobs) (h2 : j2 ∈ jobs) (he : j1.id = j2.id) :
    j1 = j2 :=
  List.inj_on_of_nodup_map h h1 h2 he

lemma isPendingDownload_spec {j : Job} (h : isPendingDownload j = true) :
    j.jobType = "download" ∧ j.status = .pending :=
  of_decide_eq_true h

lemma inv_poll_pass {s : ManagerState} (inv : SchedInv s) :
    SchedInv (poll_pass s) := by
  unfold poll_pass
  by_cases hav : 0 < s.maxWorkers - s.active.length
  case neg => rw [if_neg hav]; exact inv
  rw [if_pos hav]
  dsimp only
  set sel := pending_jobs_query s.jobs (s.maxWorkers - s.active.length)
    with hsel
  have hselLen : sel.length ≤ s.maxWorkers - s.active.length :=
    pending_query_length _ _
  have hselMem : ∀ j ∈ sel, j ∈ s.jobs ∧ isPendingDownload j = true :=
    fun j hj => pending_query_mem hj
  have hselNodup : (sel.map Job.id).Nodup :=
    pending_query_ids_nodup _ inv.idsNodup
  have hdisjActive : ∀ i ∈ sel.map Job.id, i ∉ s.active.map Prod.fst := by
    intro i hi hmem
    rcases List.mem_map.1 hi with ⟨j, hjsel, rfl⟩
    have hjp := (isPendingDownload_spec (hselMem j hjsel).2).2
    rcases List.mem_map.1 hmem with ⟨p, hp, hpe⟩
    obtain ⟨j2, hj2, hj2id, hj2run⟩ := inv.activeRunning p hp
    have heq : j2 = j :=
      id_unique inv.idsNodup hj2 (hselMem j hjsel).1 (by rw [hj2id, hpe])
    rw [heq, hjp] at hj2run
    cases hj2run
  have hdisjSubmitted : ∀ i ∈ sel.map Job.id, i ∉ s.submitted := by
    intro i hi hmem
    rcases List.mem_map.1 hi with ⟨j, hjsel, rfl⟩
    have hjp := (isPendingDownload_spec (hselMem j hjsel).2).2
    obtain ⟨j2, hj2, hj2id, hj2ne⟩ := inv.submittedDone _ hmem
    have heq : j2 = j := id_unique inv.idsNodup hj2 (hselMem j hjsel).1 hj2id
    rw [heq, hjp] at hj2ne
    exact hj2ne rfl
  constructor
  · -- activeBound
    show (s.active ++ sel.map (fun j => (j.id, false))).length ≤ s.maxWorkers
    rw [List.length_append, List.length_map]
    omega
  · -- idsNodup
    rw [setRunningAll_map_id]
    exact inv.idsNodup
  · -- activeNodup
    rw [List.map_append]
    have hkeys : (sel.map (fun j => (j.id, false))).map Prod.fst
        = sel.map Job.id := by
      rw [List.map_map]; rfl
    rw [hkeys]
    exact List.Nodup.append inv.activeNodup hselNodup
      (fun a ha hb => hdisjActive a hb ha)
  · -- runningActive
    intro j2 hj2 hrun
    rcases List.mem_map.1 hj2 with ⟨j, hj, rfl⟩
    rw [List.map_append]
    by_cases hin : j.id ∈ sel.map Job.id
    · refine List.mem_append.2 (Or.inr ?_)
      have hkeys : (sel.map (fun j => (j.id, false))).map Prod.fst
          = sel.map Job.id := by
        rw [List.map_map]; rfl
      rw [hkeys]
      simp only [hin]
      exact hin
    · rw [if_neg hin] at hrun ⊢
      exact List.mem_append.2 (Or.inl (inv.runningActive j hj hrun))
  · -- activeRunning
    intro p hp
    rcases List.mem_append.1 hp with hp | hp
    · obtain ⟨j, hj, hjid, hjrun⟩ := inv.activeRunning p hp
      refine ⟨if j.id ∈ sel.map Job.id then { j with status := .running }
        else j, List.mem_map.2 ⟨j, hj, rfl⟩, ?_⟩
      by_cases hin : j.id ∈ sel.map Job.id
      · simp only [if_pos hin]
        exact ⟨hjid, by trivial⟩
      · simp only [if_neg hin]
        exact ⟨hjid, hjrun⟩
    · rcases List.mem_map.1 hp with ⟨j, hjsel, rfl⟩
      have hin : j.id ∈ sel.map Job.id := List.mem_map.2 ⟨j, hjsel, rfl⟩
      refine ⟨{ j with status := .running },
        List.mem_map.2 ⟨j, (hselMem j hjsel).1, by rw [if_pos hin]⟩, rfl,
        by trivial⟩
  · -- submittedDone
    intro i hi
    rcases List.mem_append.1 hi with hi | hi
    · obtain ⟨j, hj, hjid, hjne⟩ := inv.submittedDone i hi
      refine ⟨if j.id ∈ sel.map Job.id then { j with status := .running }
        else j, List.mem_map.2 ⟨j, hj, rfl⟩, ?_⟩
      by_cases hin : j.id ∈ sel.map Job.id
      · simp only [if_pos hin]
        exact ⟨hjid, by intro hc; cases hc⟩

      · simp only [if_neg hin]
        exact ⟨hjid, hjne⟩
    · rcases List.mem_map.1 hi with ⟨j, hjsel, rfl⟩
      have hin : j.id ∈ sel.map Job.id := List.mem_map.2 ⟨j, hjsel, rfl⟩
      refine ⟨{ j with status := .running },
        List.mem_map.2 ⟨j, (hselMem j hjsel).1, by rw [if_pos hin]⟩, rfl,
        by intro hc; cases hc⟩
  · -- submittedNodup
    exact List.Nodup.append inv.submittedNodup hselNodup
      (fun a ha hb => hdisjSubmitted a hb ha)

lemma inv_submit {s : ManagerState} (j : Job) (hp : j.status = .pending)
    (hid : ∀ j2 ∈ s.jobs, j2.id ≠ j.id) (inv : SchedInv s) :
    SchedInv (submit_job s j) := by
  unfold submit_job
  constructor
  · exact inv.activeBound
  · rw [List.map_append]
    refine List.Nodup.append inv.idsNodup (by simp) ?_
    intro a ha hb
    rcases List.mem_map.1 ha with ⟨j2, hj2, rfl⟩
    simp only [List.map_cons, List.map_nil, List.mem_singleton] at hb
    exact hid j2 hj2 hb
  · exact inv.activeNodup
  · intro j2 hj2 hrun
    rcases List.mem_append.1 hj2 with hj2 | hj2
    · exact inv.runningActive j2 hj2 hrun
    · rw [List.mem_singleton.1 hj2, hp] at hrun
      cases hrun
  · intro p hp2
    obtain ⟨j2, hj2, hjid, hjrun⟩ := inv.activeRunning p hp2
    exact ⟨j2, List.mem_append.2 (Or.inl hj2), hjid, hjrun⟩
  · intro i hi
    obtain ⟨j2, hj2, hjid, hjne⟩ := inv.submittedDone i hi
    exact ⟨j2, List.mem_append.2 (Or.inl hj2), hjid, hjne⟩
  · exact inv.submittedNodup

lemma start_execution_keys (s : ManagerState) (jid : Nat) :
    (start_execution s jid).active.map Prod.fst = s.active.map Prod.fst := by
  unfold start_execution
  rw [List.map_map]
  apply List.map_congr_left
  intro p _
  by_cases h : p.1 = jid <;> simp [h]

lemma inv_start {s : ManagerState} (jid : Nat) (inv : SchedInv s) :
    SchedInv (start_execution s jid) := by
  constructor
  · have : (start_execution s jid).active.length = s.active.length := by
      unfold start_execution
      exact List.length_map _ _
    rw [this]
    exact inv.activeBound
  · exact inv.idsNodup
  · rw [start_execution_keys]
    exact inv.activeNodup
  · intro j hj hrun
    rw [start_execution_keys]
    exact inv.runningActive j hj hrun
  · intro p hp
    rcases List.mem_map.1 hp with ⟨q, hq, rfl⟩
    obtain ⟨j, hj, hjid, hjrun⟩ := inv.activeRunning q hq
    refine ⟨j, hj, ?_, hjrun⟩
    by_cases h : q.1 = jid <;> simp [h, hjid]
  · exact inv.submittedDone
  · exact inv.submittedNodup

lemma inv_terminal_filter {s : ManagerState} (jid : Nat) (st : JobStatus)
    (hstr : st ≠ .running) (hstp : st ≠ .pending) (inv : SchedInv s) :
    SchedInv { s with jobs := setJobStatus s.jobs jid st,
                      active := s.active.filter
                        (fun p => decide (p.1 ≠ jid)) } := by
  constructor
  · exact le_trans (List.length_filter_le _ _) inv.activeBound
  · show ((setJobStatus s.jobs jid st).map Job.id).Nodup
    rw [setJobStatus_map_id]
    exact inv.idsNodup
  · exact List.Sublist.nodup (List.Sublist.map _ (List.filter_sublist _))
      inv.activeNodup
  · intro j2 hj2 hrun
    rcases List.mem_map.1 hj2 with ⟨j, hj, rfl⟩
    by_cases hin : j.id = jid
    · rw [if_pos hin] at hrun ⊢
      exact absurd hrun hstr
    · rw [if_neg hin] at hrun ⊢
      have hkey := inv.runningActive j hj hrun
      rcases List.mem_map.1 hkey with ⟨p, hp2, hpe⟩
      refine List.mem_map.2 ⟨p, List.mem_filter.2 ⟨hp2, ?_⟩, hpe⟩
      simp [hpe, hin]
  · intro p hp2
    have hpa := List.mem_of_mem_filter hp2
    have hpne : p.1 ≠ jid := by
      have := List.of_mem_filter hp2
      simpa using this
    obtain ⟨j, hj, hjid, hjrun⟩ := inv.activeRunning p hpa
    refine ⟨if j.id = jid then { j with status := st } else j,
      List.mem_map.2 ⟨j, hj, rfl⟩, ?_⟩
    rw [if_neg (by rw [hjid]; exact hpne)]
    exact ⟨hjid, hjrun⟩
  · intro i hi
    obtain ⟨j, hj, hjid, hjne⟩ := inv.submittedDone i hi
    refine ⟨if j.id = jid then { j with status := st } else j,
      List.mem_map.2 ⟨j, hj, rfl⟩, ?_⟩
    by_cases hin : j.id = jid
    · rw [if_pos hin]
      exact ⟨hjid, by simpa using hstp⟩
    · rw [if_neg hin]
      exact ⟨hjid, hjne⟩
  · exact inv.submittedNodup

lemma inv_finish_job {s : ManagerState} (jid : Nat) (st : JobStatus)
    (hst : st = .completed ∨ st = .failed) (inv : SchedInv s) :
    SchedInv (finish_job s jid st) := by
  unfold finish_job
  rcases hst with rfl | rfl
  · exact inv_terminal_filter jid _ (by decide) (by decide) inv
  · exact inv_terminal_filter jid _ (by decide) (by decide) inv

lemma inv_cancel_pending {s : ManagerState} (jid : Nat) (inv : SchedInv s)
    (hnone : s.active.find? (fun p => decide (p.1 = jid)) = none) :
    SchedInv { s with jobs := setJobStatus s.jobs jid .cancelled } := by
  have hfilter : s.active.filter (fun p => decide (p.1 ≠ jid)) = s.active := by
    apply List.filter_eq_self.mpr
    intro p hp
    have := List.find?_eq_none.mp hnone p hp
    simpa using this
  have h2 := inv_terminal_filter jid .cancelled (by decide) (by decide) inv
  rw [hfilter] at h2
  exact h2

lemma inv_cancel_job {s : ManagerState} (jid : Nat) (inv : SchedInv s) :
    SchedInv (cancel_job s jid).2 := by
  unfold cancel_job
  cases hfind : s.active.find? (fun p => decide (p.1 = jid)) with
  | some p =>
    dsimp only
    split_ifs with hstarted
    · exact inv
    · exact inv_terminal_filter jid .cancelled (by decide) (by decide) inv
  | none =>
    dsimp only
    split_ifs with hpend
    · exact inv_cancel_pending jid inv hfind
    · exact inv

lemma reach_inv {s : ManagerState} (h : Reach s) : SchedInv s := by
  induction h with
  | init w => constructor <;> simp
  | submit j hp hid h ih => exact inv_submit j hp hid ih
  | poll h ih => exact inv_poll_pass ih
  | start jid h ih => exact inv_start jid ih
  | finish jid st hst hin h ih => exact inv_finish_job jid st hst ih
  | cancel jid h ih => exact inv_cancel_job jid ih

lemma running_le_active {s : ManagerState} (inv : SchedInv s) :
    (s.jobs.filter (fun j => decide (j.status = .running))).length
      ≤ s.active.length := by
  set R := s.jobs.filter (fun j => decide (j.status = .running)) with hR
  have hRsub : List.Sublist R s.jobs := List.filter_sublist _
  have hnd : (R.map Job.id).Nodup :=
    List.Sublist.nodup (List.Sublist.map _ hRsub) inv.idsNodup
  have hsubset : ∀ i ∈ R.map Job.id, i ∈ s.active.map Prod.fst := by
    intro i hi
    rcases List.mem_map.1 hi with ⟨j, hj, rfl⟩
    rw [hR] at hj
    have hjrun : j.status = .running :=
      of_decide_eq_true (List.mem_filter.1 hj).2
    exact inv.runningActive j (List.mem_filter.1 hj).1 hjrun
  calc R.length = (R.map Job.id).length := (List.length_map _ _).symm
    _ = (R.map Job.id).toFinset.card := (List.toFinset_card_of_nodup hnd).symm
    _ ≤ (s.active.map Prod.fst).toFinset.card := by
        apply Finset.card_le_card
        intro a ha
        rw [List.mem_toFinset] at ha ⊢
        exact hsubset a ha
    _ ≤ (s.active.map Prod.fst).length := List.toFinset_card_le _
    _ = s.active.length := List.length_map _ _

/-- **C1**: at every reachable state of the scheduler, the number of jobs
whose status is `running` is at most the configured `max_workers`, and so
is the size of the in-flight registry: each polling pass computes
`available = max_workers - len(active_jobs)` under the lock and schedules
at most that many pending jobs. -/
theorem running_jobs_bounded_by_max_workers (s : ManagerState)
    (h : Reach s) :
    (s.jobs.filter (fun j => decide (j.status = .running))).length
      ≤ s.maxWorkers
    ∧ s.active.length ≤ s.maxWorkers := by
  have inv := reach_inv h
  exact ⟨le_trans (running_le_active inv) inv.activeBound, inv.activeBound⟩

/-- Witness for C1 at a reachable state: pool of size 1, one submitted job,
one poll pass. -/
theorem running_jobs_bounded_by_max_workers_witness :
    ((poll_pass (submit_job ⟨1, [], [], []⟩ demoJob)).jobs.filter
        (fun j => decide (j.status = .running))).length
      ≤ (poll_pass (submit_job ⟨1, [], [], []⟩ demoJob)).maxWorkers
    ∧ (poll_pass (submit_job ⟨1, [], [], []⟩ demoJob)).active.length
      ≤ (poll_pass (submit_job ⟨1, [], [], []⟩ demoJob)).maxWorkers :=
  running_jobs_bounded_by_max_workers _
    (Reach.poll (Reach.submit demoJob (by rfl)
      (by intro j2 hj2; exact absurd hj2 (List.not_mem_nil _))
      (Reach.init 1)))

/-- **C7**: the scheduler submits every job to the executor at most once
across all polling passes — the submission log has no duplicates — because
a job is only selected while `pending` and selection transitions it to
`running` in the same pass, and no step ever returns a job to `pending`. -/
theorem job_submitted_at_most_once (s : ManagerState) (h : Reach s) :
    s.submitted.Nodup
    ∧ ∀ i ∈ s.submitted, ∃ j ∈ s.jobs, j.id = i ∧ j.status ≠ .pending := by
  have inv := reach_inv h
  exact ⟨inv.submittedNodup, inv.submittedDone⟩

/-- Witness for C7 at a reachable state: pool of size 4, one submitted job,
one poll pass. -/
theorem job_submitted_at_most_once_witness :
    (poll_pass (submit_job ⟨4, [], [], []⟩ demoJob)).submitted.Nodup
    ∧ ∀ i ∈ (poll_pass (submit_job ⟨4, [], [], []⟩ demoJob)).submitted,
        ∃ j ∈ (poll_pass (submit_job ⟨4, [], [], []⟩ demoJob)).jobs,
          j.id = i ∧ j.status ≠ .pending :=
  job_submitted_at_most_once _
    (Reach.poll (Reach.submit demoJob (by rfl)
      (by intro j2 hj2; exact absurd hj2 (List.not_mem_nil _))
      (Reach.init 4)))

/-- A second pending download job with higher priority, submitted later. -/
def demoJobHi : Job := { demoJob with id := 2, priority := 5, createdAt := 1 }

/-- **C4**: a scheduling pass with `available > 0` free slots selects at
most `available` jobs, every selected job has job type `download` and
status `pending`, the selection is ordered by priority descending then
creation time ascending, and every selected job precedes (in that order)
every pending download job left unselected — so with one free slot a
pending priority-5 job is scheduled before a pending priority-1 job
regardless of submission order.  The final conjunct ties the query to the
poll pass itself. -/
theorem schedule_order_spec (jobs : List Job) (count : Nat) :
    (pending_jobs_query jobs count).length ≤ count
    ∧ (∀ j ∈ pending_jobs_query jobs count,
        j.jobType = "download" ∧ j.status = .pending)
    ∧ List.Sorted schedLE (pending_jobs_query jobs count)
    ∧ (∀ a ∈ pending_jobs_query jobs count, ∀ b ∈ jobs,
        isPendingDownload b = true → b ∉ pending_jobs_query jobs count →
        schedLE a b)
    ∧ (∀ s : ManagerState, 0 < s.maxWorkers - s.active.length →
        (poll_pass s).submitted = s.submitted
          ++ (pending_jobs_query s.jobs
              (s.maxWorkers - s.active.length)).map Job.id) := by
  refine ⟨pending_query_length _ _, ?_, pending_query_sorted _ _, ?_, ?_⟩
  · intro j hj
    exact isPendingDownload_spec (pending_query_mem hj).2
  · intro a ha b hb hbp hbn
    exact pending_query_minimal ha hb hbp hbn
  · intro s hs
    unfold poll_pass
    rw [if_pos hs]

/-- Witness for C4: with one free slot, the later-submitted priority-5 job
is selected and ordered before the earlier priority-0 job. -/
theorem schedule_order_spec_witness :
    (pending_jobs_query [demoJob, demoJobHi] 1).length ≤ 1
    ∧ schedLE demoJobHi demoJob
    ∧ demoJobHi ∈ pending_jobs_query [demoJob, demoJobHi] 1 := by
  have h := schedule_order_spec [demoJob, demoJobHi] 1
  refine ⟨h.1, ?_, ?_⟩
  · exact h.2.2.2.1 demoJobHi (by decide) demoJob (by decide) (by decide)
      (by decide)
  · decide

lemma find?_pred {α : Type} (p : α → Bool) {l : List α} {a : α}
    (h : l.find? p = some a) : p a = true :=
  List.find?_some h

lemma setJobStatus_find_none (jobs : List Job) (jid : Nat) :
    (setJobStatus jobs jid .cancelled).find? (fun j =>
      decide (j.id = jid ∧ j.status = JobStatus.pending)) = none := by
  rw [List.find?_eq_none]
  intro x hx
  rcases List.mem_map.1 hx with ⟨j, hj, rfl⟩
  by_cases h : j.id = jid
  · simp [h]
  · simp [h]

/-- **C6**: `cancel_job` returns true exactly when the call changed the
state; cancelling a job that is still `pending` and not in the in-flight
registry always succeeds and flips its row to `cancelled`; cancelling a
job in a terminal state (not in the registry) is a no-op returning false;
and cancelling an in-flight job succeeds exactly when its future has not
started running. -/
theorem cancel_job_spec (s : ManagerState) (jid : Nat) :
    ((cancel_job s jid).1 = true ↔ (cancel_job s jid).2 ≠ s)
    ∧ (s.active.find? (fun p => decide (p.1 = jid)) = none →
        (∃ j ∈ s.jobs, j.id = jid ∧ j.status = .pending) →
        (cancel_job s jid).1 = true
        ∧ ∃ j2, (cancel_job s jid).2.jobs.find?
            (fun j => decide (j.id = jid)) = some j2
          ∧ j2.status = .cancelled)
    ∧ (s.active.find? (fun p => decide (p.1 = jid)) = none →
        (∀ j ∈ s.jobs, j.id = jid →
          j.status = .completed ∨ j.status = .failed
            ∨ j.status = .cancelled) →
        cancel_job s jid = (false, s))
    ∧ (∀ p, s.active.find? (fun p => decide (p.1 = jid)) = some p →
        (cancel_job s jid).1 = !p.2) := by
  refine ⟨?_, ?_, ?_, ?_⟩
  · -- returns true iff the call changed the state
    unfold cancel_job
    cases hfind : s.active.find? (fun p => decide (p.1 = jid)) with
    | some p =>
      dsimp only
      split_ifs with hstarted
      · simp
      · have hp1 : p.1 = jid :=
          of_decide_eq_true (find?_pred
            (fun (q : Nat × Bool) => decide (q.1 = jid)) hfind)
        have hlt : (s.active.filter (fun q => decide (q.1 ≠ jid))).length
            < s.active.length := by
          rw [List.length_filter_lt_length_iff_exists]
          exact ⟨p, List.mem_of_find?_eq_some hfind, by simp [hp1]⟩
        simp only [true_iff]
        intro heq
        have := congrArg ManagerState.active heq
        dsimp at this
        rw [this] at hlt
        exact lt_irrefl _ hlt
    | none =>
      dsimp only
      split_ifs with hpend
      · rcases Option.isSome_iff_exists.mp hpend with ⟨j, hj⟩
        have hjp : j.id = jid ∧ j.status = .pending :=
          of_decide_eq_true (find?_pred (fun (j : Job) =>
            decide (j.id = jid ∧ j.status = JobStatus.pending)) hj)
        simp only [true_iff]
        intro heq
        have hjobs := congrArg ManagerState.jobs heq
        dsimp at hjobs
        have hnone := setJobStatus_find_none s.jobs jid
        rw [hjobs, hj] at hnone
        cases hnone
      · simp
  · -- cancelling a pending, not-in-flight job succeeds
    intro hnone hex
    unfold cancel_job
    rw [hnone]
    dsimp only
    rcases hex with ⟨j, hj, hjid, hjp⟩
    have hpend : (s.jobs.find? (fun j =>
        decide (j.id = jid ∧ j.status = JobStatus.pending))).isSome = true :=
      List.find?_isSome.mpr ⟨j, hj, by simp [hjid, hjp]⟩
    rw [if_pos hpend]
    refine ⟨rfl, ?_⟩
    dsimp only
    unfold setJobStatus
    rw [find?_map_ite Job.id jid (fun j => { j with status := .cancelled })
      (fun a => rfl)]
    have hsome : (s.jobs.find? (fun j => decide (j.id = jid))).isSome = true :=
      List.find?_isSome.mpr ⟨j, hj, by simp [hjid]⟩
    rcases Option.isSome_iff_exists.mp hsome with ⟨j2, hj2⟩
    rw [hj2]
    exact ⟨{ j2 with status := .cancelled }, rfl, rfl⟩
  · -- cancelling a terminal, not-in-flight job is a no-op returning false
    intro hnone hterm
    unfold cancel_job
    rw [hnone]
    dsimp only
    have hpendnone : s.jobs.find? (fun j =>
        decide (j.id = jid ∧ j.status = JobStatus.pending)) = none := by
      rw [List.find?_eq_none]
      intro j hj hc
      have hjp := of_decide_eq_true hc
      rcases hterm j hj hjp.1 with h | h | h <;> rw [h] at hjp <;> cases hjp.2
    rw [hpendnone]
    rfl
  · -- cancelling an in-flight job succeeds iff the future had not started
    intro p hfind
    unfold cancel_job
    rw [hfind]
    dsimp only
    cases hp2 : p.2 with
    | true => rfl
    | false => rfl

/-- Witness for C6: cancelling a pending, not-in-flight job succeeds and
flips the row to `cancelled`. -/
theorem cancel_job_spec_witness :
    (cancel_job ⟨4, [demoJob], [], []⟩ 1).1 = true
    ∧ ∃ j2, (cancel_job ⟨4, [demoJob], [], []⟩ 1).2.jobs.find?
        (fun j => decide (j.id = 1)) = some j2
      ∧ j2.status = .cancelled :=
  (cancel_job_spec ⟨4, [demoJob], [], []⟩ 1).2.1 (by rfl)
    ⟨demoJob, List.mem_cons_self _ _, rfl, rfl⟩

end Vidnag
